import Mathlib

/-!
Shallow embedding of `src/SelectiveFactory.hpp`.

The C++ class `SelectiveFactory<Base, Criterion, Input...>` keeps a static
`std::map<Predicate, Factory> *registeredFuns`, where `Predicate` is the
function-pointer type `bool(*)(Criterion)` and `Factory` is
`std::unique_ptr<Base>(*)(Input...)`.  We model:

* a function pointer by its address, a `Nat` (`Ptr`); the behaviour of each
  pointer is given by an environment `FacEnv` mapping predicate pointers to
  `Criterion → Bool` functions and factory pointers to `Input → Option Base`
  functions (a `std::unique_ptr<Base>` may be null, hence `Option Base`);
* the `std::map` by a list of (predicate pointer, factory pointer) pairs kept
  strictly sorted by key (`std::less` on the pointer values); `std::map::insert`
  does not overwrite an existing key, which `mapInsert` mirrors;
* the static pointer `registeredFuns` by `Option FunctionContainer`, `none`
  standing for the null pointer, with `create` performing the lazy allocation;
* the loops of `Produce` and `ProduceOne` by structural recursion over the
  sorted entry list, in the map's iteration order (ascending key order).
-/

namespace SelectiveFactory

/-- A function pointer, modelled by its address. -/
abbrev Ptr := Nat

/-- Behaviour of the function pointers appearing in one template instantiation:
`pred p` is the predicate stored at address `p` (type `bool(*)(Criterion)`) and
`fac f` is the factory stored at address `f` (type
`std::unique_ptr<Base>(*)(Input...)`; the returned owning pointer may be null,
modelled by `Option Base`). -/
structure FacEnv (Criterion Input Base : Type) where
  pred : Ptr → Criterion → Bool
  fac : Ptr → Input → Option Base

/-- The `std::map<Predicate, Factory>`: association list strictly sorted by the
predicate-pointer key. -/
abbrev FunctionContainer := List (Ptr × Ptr)

/-- The keys (predicate pointers) of the container. -/
def keys (s : FunctionContainer) : List Ptr := s.map Prod.fst

/-- The map invariant: entries strictly ascending in the key. -/
def KeySorted (s : FunctionContainer) : Prop :=
  s.Pairwise (fun a b => a.1 < b.1)

/-- `registeredFuns->insert(std::make_pair(predicate, factory))`: insert at the
sorted position; a pair whose key is already present is silently dropped
(`std::map::insert` does not overwrite). -/
def mapInsert (p f : Ptr) : FunctionContainer → FunctionContainer
  | [] => [(p, f)]
  | e :: rest =>
    if p < e.1 then (p, f) :: e :: rest
    else if p = e.1 then e :: rest
    else e :: mapInsert p f rest

/-- Registry contents after a sequence of `registerPtr` calls (given as the list
of (predicate, factory) pointer pairs in registration order) starting from the
freshly created empty container. -/
def buildState (rs : List (Ptr × Ptr)) : FunctionContainer :=
  rs.foldl (fun m e => mapInsert e.1 e.2 m) []

variable {Criterion Input Base : Type}

/-- The loop of `SelectiveFactory::Produce`: iterate the map in its (key) order,
and for every entry whose predicate accepts the criterion, call the factory and
append its result to the output vector. -/
def Produce (env : FacEnv Criterion Input Base) (c : Criterion) (i : Input) :
    FunctionContainer → List (Option Base)
  | [] => []
  | e :: rest =>
    if env.pred e.1 c then env.fac e.2 i :: Produce env c i rest
    else Produce env c i rest

/-- The loop of `SelectiveFactory::ProduceOne`: iterate the map in its (key)
order and return the first accepted entry's factory result; return the null
owning pointer (`none`) when no entry is accepted. -/
def ProduceOne (env : FacEnv Criterion Input Base) (c : Criterion) (i : Input) :
    FunctionContainer → Option Base
  | [] => none
  | e :: rest =>
    if env.pred e.1 c then env.fac e.2 i
    else ProduceOne env c i rest

/-! ### Basic lemmas about the sorted map -/

theorem mem_mapInsert {q : Ptr × Ptr} {p f : Ptr} {s : FunctionContainer}
    (h : q ∈ mapInsert p f s) : q = (p, f) ∨ q ∈ s := by
  induction s with
  | nil => simpa [mapInsert] using h
  | cons e rest ih =>
    rw [mapInsert] at h
    split at h
    · rcases List.mem_cons.mp h with h | h
      · exact Or.inl h
      · exact Or.inr h
    · split at h
      · exact Or.inr h
      · rcases List.mem_cons.mp h with h | h
        · exact Or.inr (List.mem_cons.mpr (Or.inl h))
        · rcases ih h with h | h
          · exact Or.inl h
          · exact Or.inr (List.mem_cons.mpr (Or.inr h))

theorem mem_keys_mapInsert {q p f : Ptr} {s : FunctionContainer} :
    q ∈ keys (mapInsert p f s) ↔ q = p ∨ q ∈ keys s := by
  induction s with
  | nil => simp [mapInsert, keys]
  | cons e rest ih =>
    rw [mapInsert]
    split
    · simp only [keys, List.map_cons, List.mem_cons]
    · split
      · rename_i hne hpe
        subst hpe
        simp only [keys, List.map_cons, List.mem_cons]
        tauto
      · simp only [keys, List.map_cons, List.mem_cons]
        simp only [keys] at ih
        rw [ih]
        tauto

theorem keySorted_mapInsert {p f : Ptr} {s : FunctionContainer}
    (hs : KeySorted s) : KeySorted (mapInsert p f s) := by
  induction s with
  | nil => simp [mapInsert, KeySorted]
  | cons e rest ih =>
    rw [KeySorted, List.pairwise_cons] at hs
    obtain ⟨he, hrest⟩ := hs
    by_cases h1 : p < e.1
    · rw [KeySorted, mapInsert, if_pos h1]
      refine List.pairwise_cons.mpr ⟨?_, List.pairwise_cons.mpr ⟨he, hrest⟩⟩
      intro q hq
      rcases List.mem_cons.mp hq with h | h
      · simpa [h] using h1
      · exact lt_trans h1 (he q h)
    · by_cases h2 : p = e.1
      · rw [KeySorted, mapInsert, if_neg h1, if_pos h2]
        exact List.pairwise_cons.mpr ⟨he, hrest⟩
      · rw [KeySorted, mapInsert, if_neg h1, if_neg h2]
        refine List.pairwise_cons.mpr ⟨?_, ih hrest⟩
        intro q hq
        rcases mem_mapInsert hq with h | h
        · subst h
          exact lt_of_le_of_ne (not_lt.mp h1) (Ne.symm h2)
        · exact he q h

theorem keySorted_buildState (rs : List (Ptr × Ptr)) : KeySorted (buildState rs) := by
  have main : ∀ (l : List (Ptr × Ptr)) (m : FunctionContainer), KeySorted m →
      KeySorted (l.foldl (fun m e => mapInsert e.1 e.2 m) m) := by
    intro l
    induction l with
    | nil => intro m hm; simpa using hm
    | cons e rest ih =>
      intro m hm
      exact ih _ (keySorted_mapInsert hm)
  exact main rs [] (by simp [KeySorted])

theorem mapInsert_eq_of_mem_keys {p f : Ptr} {s : FunctionContainer}
    (hs : KeySorted s) (hp : p ∈ keys s) : mapInsert p f s = s := by
  induction s with
  | nil => simp [keys] at hp
  | cons e rest ih =>
    rw [KeySorted, List.pairwise_cons] at hs
    obtain ⟨he, hrest⟩ := hs
    rcases List.mem_cons.mp (show p ∈ e.1 :: keys rest from hp) with h | h
    · rw [mapInsert, if_neg (by rw [h]; exact lt_irrefl _), if_pos h]
    · obtain ⟨q, hq, hqp⟩ := List.mem_map.mp h
      have hlt : e.1 < p := hqp ▸ he q hq
      rw [mapInsert, if_neg (not_lt.mpr hlt.le), if_neg (ne_of_gt hlt)]
      rw [ih hrest h]

/-! ### Characterisation of the query loops -/

theorem Produce_eq_filter_map (env : FacEnv Criterion Input Base) (c : Criterion)
    (i : Input) (s : FunctionContainer) :
    Produce env c i s
      = (s.filter (fun e => env.pred e.1 c)).map (fun e => env.fac e.2 i) := by
  induction s with
  | nil => rfl
  | cons e rest ih =>
    by_cases h : env.pred e.1 c
    · simp [Produce, h, ih]
    · simp [Produce, h, ih]

theorem Produce_eq_nil_of_no_match (env : FacEnv Criterion Input Base) (c : Criterion)
    (i : Input) (s : FunctionContainer) (h : ∀ e ∈ s, env.pred e.1 c = false) :
    Produce env c i s = [] := by
  rw [Produce_eq_filter_map, List.filter_eq_nil_iff.mpr ?_, List.map_nil]
  intro e he
  simp [h e he]

theorem ProduceOne_eq_none_of_no_match (env : FacEnv Criterion Input Base) (c : Criterion)
    (i : Input) (s : FunctionContainer) (h : ∀ e ∈ s, env.pred e.1 c = false) :
    ProduceOne env c i s = none := by
  induction s with
  | nil => rfl
  | cons e rest ih =>
    rw [ProduceOne, if_neg (by simp [h e (List.mem_cons_self e rest)])]
    exact ih fun e' he' => h e' (List.mem_cons_of_mem _ he')

theorem ProduceOne_first_sorted_match (env : FacEnv Criterion Input Base)
    (c : Criterion) (i : Input) (s : FunctionContainer) (hs : KeySorted s)
    (p₀ f₀ : Ptr) (hmem : (p₀, f₀) ∈ s) (hp₀ : env.pred p₀ c = true) :
    ∃ p f, (p, f) ∈ s ∧ env.pred p c = true ∧
      (∀ q g, (q, g) ∈ s → env.pred q c = true → p ≤ q) ∧
      ProduceOne env c i s = env.fac f i := by
  induction s with
  | nil => cases hmem
  | cons e rest ih =>
    rw [KeySorted, List.pairwise_cons] at hs
    obtain ⟨he, hrest⟩ := hs
    by_cases h : env.pred e.1 c
    · refine ⟨e.1, e.2, List.mem_cons_self e rest, h, ?_, ?_⟩
      · intro q g hqg hq
        rcases List.mem_cons.mp hqg with h' | h'
        · rw [show q = e.1 from congrArg Prod.fst h']
        · exact le_of_lt (he (q, g) h')
      · rw [ProduceOne, if_pos h]
    · have hmem' : (p₀, f₀) ∈ rest := by
        rcases List.mem_cons.mp hmem with h' | h'
        · exfalso
          rw [show p₀ = e.1 from congrArg Prod.fst h'] at hp₀
          exact h hp₀
        · exact h'
      obtain ⟨p, f, hpf, hp, hmin, hval⟩ := ih hrest hmem'
      refine ⟨p, f, List.mem_cons_of_mem _ hpf, hp, ?_, ?_⟩
      · intro q g hqg hq
        rcases List.mem_cons.mp hqg with h' | h'
        · exfalso
          rw [show q = e.1 from congrArg Prod.fst h'] at hq
          exact h hq
        · exact hmin q g h' hq
      · rw [ProduceOne, if_neg h, hval]

theorem countP_key_eq_one {p f : Ptr} {s : FunctionContainer}
    (hs : KeySorted s) (hmem : (p, f) ∈ s) :
    s.countP (fun e => e.1 = p) = 1 := by
  induction s with
  | nil => cases hmem
  | cons e rest ih =>
    rw [KeySorted, List.pairwise_cons] at hs
    obtain ⟨he, hrest⟩ := hs
    rcases List.mem_cons.mp hmem with h | h
    · rw [← h] at he ⊢
      have hpa : (fun e : Ptr × Ptr => decide (e.1 = p)) (p, f) = true := by simp
      rw [List.countP_cons_of_pos _ rest hpa]
      have hzero : rest.countP (fun e => e.1 = p) = 0 := by
        rw [List.countP_eq_zero]
        intro q hq
        have h2 : p < q.1 := he q hq
        simp only [decide_eq_true_eq]
        intro hq1
        rw [hq1] at h2
        exact lt_irrefl _ h2
      rw [hzero]
    · have hlt : e.1 < p := by
        have := he (p, f) h
        simpa using this
      have hne : ¬((fun e : Ptr × Ptr => decide (e.1 = p)) e = true) := by
        simp only [decide_eq_true_eq]
        intro hq1
        rw [hq1] at hlt
        exact lt_irrefl _ hlt
      rw [List.countP_cons_of_neg _ rest hne, ih hrest h]

/-! ### The static pointer layer -/

/-- The static member `registeredFuns`: a possibly null pointer to the
container, `none` modelling the null pointer (its initial value at program
start). -/
abbrev RegPtr := Option FunctionContainer

/-- `SelectiveFactory::create`:
`if(!registeredFuns) registeredFuns = new FunctionContainer;`. -/
def create (s : RegPtr) : RegPtr :=
  match s with
  | none => some []
  | some m => some m

/-- `SelectiveFactory::registerPtr`: `create();
registeredFuns->insert(std::make_pair(predicate, factory));`.  The second
component records whether the dereference of `registeredFuns` found a
constructed container (`false` would be a null dereference, undefined
behaviour). -/
def registerPtr (p f : Ptr) (s : RegPtr) : RegPtr × Bool :=
  match create s with
  | some m => (some (mapInsert p f m), true)
  | none => (none, false)

/-- `SelectiveFactory::Produce` with its `create()` call and the dereference of
the static pointer: the result vector, the pointer afterwards and the
dereference-safety flag. -/
def ProduceS (env : FacEnv Criterion Input Base) (c : Criterion) (i : Input)
    (s : RegPtr) : List (Option Base) × RegPtr × Bool :=
  match create s with
  | some m => (Produce env c i m, some m, true)
  | none => ([], none, false)

/-- `SelectiveFactory::ProduceOne` with its `create()` call and the dereference
of the static pointer. -/
def ProduceOneS (env : FacEnv Criterion Input Base) (c : Criterion) (i : Input)
    (s : RegPtr) : Option Base × RegPtr × Bool :=
  match create s with
  | some m => (ProduceOne env c i m, some m, true)
  | none => (none, none, false)

/-- The entry collection reachable through the static pointer (empty when the
pointer is null). -/
def entriesOf (s : RegPtr) : FunctionContainer := s.getD []

/-- One call into the public interface of one factory instantiation. -/
inductive Op (Criterion Input : Type)
  | reg (p f : Ptr)
  | prodAll (c : Criterion) (i : Input)
  | prodOne (c : Criterion) (i : Input)

/-- Number of container constructions performed by one `create()` call on
pointer state `s`: one when the pointer is still null, none otherwise. -/
def newCount (s : RegPtr) : Nat :=
  match s with
  | none => 1
  | some _ => 0

/-- One public call.  Every operation begins with `create()`; the second
component counts container constructions during the call and the third records
whether every dereference of the static pointer was safe. -/
def stepOp (o : Op Criterion Input) (s : RegPtr) : RegPtr × Nat × Bool :=
  match o, create s with
  | Op.reg p f, some m => (some (mapInsert p f m), newCount s, true)
  | Op.prodAll _ _, some m => (some m, newCount s, true)
  | Op.prodOne _ _, some m => (some m, newCount s, true)
  | _, none => (none, newCount s, false)

/-- Run a sequence of public calls, accumulating the number of container
constructions and whether every dereference was safe. -/
def runOps : List (Op Criterion Input) → RegPtr → RegPtr × Nat × Bool
  | [], s => (s, 0, true)
  | o :: rest, s =>
    let r1 := stepOp o s
    let r2 := runOps rest r1.1
    (r2.1, r1.2.1 + r2.2.1, r1.2.2 && r2.2.2)

/-- The observable world at a `registerPtr` call: the static container pointer
of this instantiation, the (immutable) behaviour of the registered function
pointers, and everything else in the program. -/
structure World (Criterion Input Base Other : Type) where
  registeredFuns : RegPtr
  env : FacEnv Criterion Input Base
  other : Other

/-- `registerPtr` acting on the whole world: the body only runs `create()` and
`registeredFuns->insert(...)`; its return type is `void`. -/
def registerPtrW (p f : Ptr) (w : World Criterion Input Base Other) :
    World Criterion Input Base Other :=
  { w with registeredFuns := (registerPtr p f w.registeredFuns).1 }

/-! ### Instrumented query loops -/

/-- An observable call made during a query: an evaluation of the predicate
stored at an address (with its outcome), or an invocation of the factory of the
entry `(p, f)`. -/
inductive Ev
  | predEval (p : Ptr) (r : Bool)
  | facCall (p f : Ptr)
deriving DecidableEq

/-- The `Produce` loop instrumented with the calls it makes, in order. -/
def ProduceEv (env : FacEnv Criterion Input Base) (c : Criterion) (i : Input) :
    FunctionContainer → List (Option Base) × List Ev
  | [] => ([], [])
  | e :: rest =>
    let r := ProduceEv env c i rest
    if env.pred e.1 c then
      (env.fac e.2 i :: r.1, Ev.predEval e.1 true :: Ev.facCall e.1 e.2 :: r.2)
    else (r.1, Ev.predEval e.1 false :: r.2)

/-- The `ProduceOne` loop instrumented with the calls it makes, in order. -/
def ProduceOneEv (env : FacEnv Criterion Input Base) (c : Criterion) (i : Input) :
    FunctionContainer → Option Base × List Ev
  | [] => (none, [])
  | e :: rest =>
    if env.pred e.1 c then
      (env.fac e.2 i, [Ev.predEval e.1 true, Ev.facCall e.1 e.2])
    else
      let r := ProduceOneEv env c i rest
      (r.1, Ev.predEval e.1 false :: r.2)

/-- Whether an event is an evaluation of the predicate stored at address `p`. -/
def isPredEvalAt (p : Ptr) : Ev → Bool
  | Ev.predEval q _ => q = p
  | _ => false

/-! ### Spec-modelled registration-order semantics (for comparison) -/

/-- Modelled from the spec: the entry list in registration order, a later
registration under an already present predicate identity being a no-op. -/
def specRegLog (rs : List (Ptr × Ptr)) : List (Ptr × Ptr) :=
  rs.foldl (fun acc e => if acc.any (fun x => x.1 = e.1) then acc else acc ++ [e]) []

/-- Modelled from the spec: `ProduceAll` iterating the entries in registration
order and producing one object per matching entry. -/
def specProduceAll (env : FacEnv Criterion Input Base) (c : Criterion) (i : Input)
    (rs : List (Ptr × Ptr)) : List (Option Base) :=
  ((specRegLog rs).filter (fun e => env.pred e.1 c)).map (fun e => env.fac e.2 i)

/-- Modelled from the spec: `ProduceFirst` returning the produced object of the
earliest-registered matching entry. -/
def specProduceFirst (env : FacEnv Criterion Input Base) (c : Criterion) (i : Input)
    (rs : List (Ptr × Ptr)) : Option Base :=
  match (specRegLog rs).find? (fun e => env.pred e.1 c) with
  | some e => env.fac e.2 i
  | none => none

/-! ### Concrete instantiations used in counterexamples and witnesses -/

/-- A concrete instantiation: every predicate accepts every criterion and the
factory at address `f` returns the object `f`. -/
def envCex : FacEnv Unit Unit Nat where
  pred := fun _ _ => true
  fac := fun f _ => some f

/-- A concrete instantiation whose predicates reject every criterion. -/
def envNoMatch : FacEnv Unit Unit Nat where
  pred := fun _ _ => false
  fac := fun f _ => some f

/-- A concrete instantiation whose factories all return the null owning
pointer. -/
def envNullFac : FacEnv Unit Unit Nat where
  pred := fun _ _ => true
  fac := fun _ _ => none

/-- The registration sequence of the order counterexamples: the predicate at
address 2 is registered before the predicate at address 1. -/
def rsCex : List (Ptr × Ptr) := [(2, 20), (1, 10)]

/-! ### Further helper lemmas -/

theorem key_unique {p f g : Ptr} {s : FunctionContainer} (hs : KeySorted s)
    (hf : (p, f) ∈ s) (hg : (p, g) ∈ s) : f = g := by
  induction s with
  | nil => cases hf
  | cons e rest ih =>
    rw [KeySorted, List.pairwise_cons] at hs
    obtain ⟨he, hrest⟩ := hs
    rcases List.mem_cons.mp hf with h1 | h1 <;> rcases List.mem_cons.mp hg with h2 | h2
    · exact congrArg Prod.snd (h1.trans h2.symm)
    · exfalso
      have hlt : e.1 < (p, g).1 := he (p, g) h2
      rw [← h1] at hlt
      exact lt_irrefl p hlt
    · exfalso
      have hlt : e.1 < (p, f).1 := he (p, f) h1
      rw [← h2] at hlt
      exact lt_irrefl p hlt
    · exact ih hrest h1 h2

theorem countP_key_le_one (p : Ptr) {s : FunctionContainer} (hs : KeySorted s) :
    s.countP (fun e => e.1 = p) ≤ 1 := by
  by_cases hp : p ∈ keys s
  · obtain ⟨q, hq, hqp⟩ := List.mem_map.mp hp
    have hmem : (p, q.2) ∈ s := by
      rw [← hqp]
      simpa using hq
    exact le_of_eq (countP_key_eq_one hs hmem)
  · have hzero : s.countP (fun e => e.1 = p) = 0 := by
      rw [List.countP_eq_zero]
      intro q hq
      simp only [decide_eq_true_eq]
      intro hq1
      exact hp (List.mem_map.mpr ⟨q, hq, hq1⟩)
    rw [hzero]
    exact Nat.zero_le 1

theorem ProduceEv_fst (env : FacEnv Criterion Input Base) (c : Criterion)
    (i : Input) (s : FunctionContainer) :
    (ProduceEv env c i s).1 = Produce env c i s := by
  induction s with
  | nil => rfl
  | cons e rest ih =>
    by_cases h : env.pred e.1 c <;> simp [ProduceEv, Produce, h, ih]

theorem ProduceOneEv_fst (env : FacEnv Criterion Input Base) (c : Criterion)
    (i : Input) (s : FunctionContainer) :
    (ProduceOneEv env c i s).1 = ProduceOne env c i s := by
  induction s with
  | nil => rfl
  | cons e rest ih =>
    by_cases h : env.pred e.1 c <;> simp [ProduceOneEv, ProduceOne, h, ih]

theorem ProduceEv_predEval_count (env : FacEnv Criterion Input Base) (c : Criterion)
    (i : Input) (p : Ptr) (s : FunctionContainer) :
    (ProduceEv env c i s).2.countP (isPredEvalAt p)
      = s.countP (fun e => e.1 = p) := by
  induction s with
  | nil => rfl
  | cons e rest ih =>
    by_cases h : env.pred e.1 c <;>
      simp [ProduceEv, h, List.countP_cons, isPredEvalAt, ih]

theorem ProduceOneEv_predEval_count_le (env : FacEnv Criterion Input Base)
    (c : Criterion) (i : Input) (p : Ptr) (s : FunctionContainer) :
    (ProduceOneEv env c i s).2.countP (isPredEvalAt p)
      ≤ s.countP (fun e => e.1 = p) := by
  induction s with
  | nil => exact Nat.le_refl 0
  | cons e rest ih =>
    by_cases h : env.pred e.1 c
    · simp only [ProduceOneEv, if_pos h, List.countP_cons, List.countP_nil,
        isPredEvalAt]
      by_cases hep : e.1 = p
      · simp [hep]
      · simp [hep]
    · simp only [ProduceOneEv, if_neg h, List.countP_cons, isPredEvalAt]
      exact Nat.add_le_add_right ih _

theorem ProduceEv_facCall_mem (env : FacEnv Criterion Input Base) (c : Criterion)
    (i : Input) {p f : Ptr} {s : FunctionContainer}
    (h : Ev.facCall p f ∈ (ProduceEv env c i s).2) :
    (p, f) ∈ s ∧ env.pred p c = true := by
  induction s with
  | nil => cases h
  | cons e rest ih =>
    by_cases hp : env.pred e.1 c
    · simp only [ProduceEv, if_pos hp, List.mem_cons] at h
      rcases h with h1 | h1 | h1
      · exact Ev.noConfusion h1
      · have hp1 : p = e.1 := by injection h1
        have hf1 : f = e.2 := by injection h1
        refine ⟨?_, ?_⟩
        · rw [hp1, hf1]
          exact List.mem_cons_self e rest
        · rw [hp1]
          exact hp
      · obtain ⟨hm, hpred⟩ := ih h1
        exact ⟨List.mem_cons_of_mem _ hm, hpred⟩
    · simp only [ProduceEv, if_neg hp, List.mem_cons] at h
      rcases h with h1 | h1
      · exact Ev.noConfusion h1
      · obtain ⟨hm, hpred⟩ := ih h1
        exact ⟨List.mem_cons_of_mem _ hm, hpred⟩

theorem ProduceOneEv_facCall_mem (env : FacEnv Criterion Input Base) (c : Criterion)
    (i : Input) {p f : Ptr} {s : FunctionContainer}
    (h : Ev.facCall p f ∈ (ProduceOneEv env c i s).2) :
    (p, f) ∈ s ∧ env.pred p c = true := by
  induction s with
  | nil => cases h
  | cons e rest ih =>
    by_cases hp : env.pred e.1 c
    · simp only [ProduceOneEv, if_pos hp, List.mem_cons, List.not_mem_nil] at h
      rcases h with h1 | h1 | h1
      · exact Ev.noConfusion h1
      · have hp1 : p = e.1 := by injection h1
        have hf1 : f = e.2 := by injection h1
        refine ⟨?_, ?_⟩
        · rw [hp1, hf1]
          exact List.mem_cons_self e rest
        · rw [hp1]
          exact hp
      · cases h1
    · simp only [ProduceOneEv, if_neg hp, List.mem_cons] at h
      rcases h with h1 | h1
      · exact Ev.noConfusion h1
      · obtain ⟨hm, hpred⟩ := ih h1
        exact ⟨List.mem_cons_of_mem _ hm, hpred⟩

theorem runOps_from_some (ops : List (Op Criterion Input)) (m : FunctionContainer) :
    (runOps ops (some m)).2.1 = 0 ∧ (runOps ops (some m)).2.2 = true := by
  induction ops generalizing m with
  | nil => simp [runOps]
  | cons o rest ih =>
    cases o <;> simp [runOps, stepOp, create, newCount, ih]

/-! ### The claims -/

/-- Claim C1 counterexample: in the registry built by registering the entry
with predicate address 2 (factory 20) first and the entry with predicate
address 1 (factory 10) second, with every predicate true, `ProduceOne` returns
the later-registered entry's object `some 10` (the map iterates in key order),
while selection by registration order would return `some 20`. -/
theorem claim1_counterexample :
    ProduceOne envCex () () (buildState rsCex) = some 10
    ∧ specProduceFirst envCex () () rsCex = some 20
    ∧ (some 10 : Option Nat) ≠ some 20 :=
  ⟨by decide, by decide, by decide⟩

/-- Claim C1 (amended): `ProduceOne` returns the object produced by the
matching entry whose predicate pointer is least in the map's key order
(`std::less` over the function pointers), not the earliest-registered match. -/
theorem claim1_first_match_in_key_order (env : FacEnv Criterion Input Base)
    (c : Criterion) (i : Input) (rs : List (Ptr × Ptr)) (p₀ f₀ : Ptr)
    (hmem : (p₀, f₀) ∈ buildState rs) (hp₀ : env.pred p₀ c = true) :
    ∃ p f, (p, f) ∈ buildState rs ∧ env.pred p c = true ∧
      (∀ q g, (q, g) ∈ buildState rs → env.pred q c = true → p ≤ q) ∧
      ProduceOne env c i (buildState rs) = env.fac f i :=
  ProduceOne_first_sorted_match env c i _ (keySorted_buildState rs) p₀ f₀ hmem hp₀

/-- Claim C1 (amended) witness at the counterexample registry. -/
theorem claim1_first_match_in_key_order_witness :
    ∃ p f, (p, f) ∈ buildState rsCex ∧ envCex.pred p () = true ∧
      (∀ q g, (q, g) ∈ buildState rsCex → envCex.pred q () = true → p ≤ q) ∧
      ProduceOne envCex () () (buildState rsCex) = envCex.fac f () :=
  claim1_first_match_in_key_order envCex () () rsCex 1 10 (by decide) (by decide)

/-- Claim C2 counterexample: with the entry of predicate address 2 registered
before the entry of predicate address 1 and both matching, `Produce` returns
the objects in ascending key order `[some 10, some 20]`, not in the
registration order `[some 20, some 10]` required by the claim. -/
theorem claim2_counterexample :
    Produce envCex () () (buildState rsCex) = [some 10, some 20]
    ∧ specProduceAll envCex () () rsCex = [some 20, some 10]
    ∧ ([some 10, some 20] : List (Option Nat)) ≠ [some 20, some 10] :=
  ⟨by decide, by decide, by decide⟩

/-- Claim C2 (amended): `Produce` returns exactly one object per matching
entry (its factory's result), in ascending predicate-pointer order — the
`std::map` iteration order — rather than registration order; non-matching
entries contribute nothing. -/
theorem claim2_all_matches_in_key_order (env : FacEnv Criterion Input Base)
    (c : Criterion) (i : Input) (rs : List (Ptr × Ptr)) :
    Produce env c i (buildState rs)
      = ((buildState rs).filter (fun e => env.pred e.1 c)).map (fun e => env.fac e.2 i)
    ∧ KeySorted ((buildState rs).filter (fun e => env.pred e.1 c))
    ∧ (Produce env c i (buildState rs)).length
        = (buildState rs).countP (fun e => env.pred e.1 c) := by
  refine ⟨Produce_eq_filter_map env c i _, ?_, ?_⟩
  · exact List.Pairwise.filter _ (keySorted_buildState rs)
  · rw [Produce_eq_filter_map, List.length_map, List.countP_eq_length_filter]

/-- Claim C3: registering a predicate identity that is already present — even
with a different factory — is a no-op: the pointer state is unchanged, the
registry holds exactly one entry for that predicate identity, and it is still
the one bound at the first registration. -/
theorem claim3_duplicate_registration_noop (rs : List (Ptr × Ptr)) (p f f' : Ptr)
    (hmem : (p, f) ∈ buildState rs) :
    (registerPtr p f' (some (buildState rs))).1 = some (buildState rs)
    ∧ (buildState rs).countP (fun e => e.1 = p) = 1 := by
  have hkeys : p ∈ keys (buildState rs) := List.mem_map.mpr ⟨(p, f), hmem, rfl⟩
  have hins : mapInsert p f' (buildState rs) = buildState rs :=
    mapInsert_eq_of_mem_keys (keySorted_buildState rs) hkeys
  constructor
  · show some (mapInsert p f' (buildState rs)) = some (buildState rs)
    rw [hins]
  · exact countP_key_eq_one (keySorted_buildState rs) hmem

/-- Claim C3 witness: re-registering predicate address 2 with a new factory on
the counterexample registry changes nothing. -/
theorem claim3_duplicate_registration_noop_witness :
    (registerPtr 2 99 (some (buildState rsCex))).1 = some (buildState rsCex)
    ∧ (buildState rsCex).countP (fun e => e.1 = 2) = 1 :=
  claim3_duplicate_registration_noop rsCex 2 20 99 (by decide)

/-- Claim C4: when no registered predicate holds, `Produce` returns the empty
vector and `ProduceOne` the null owning pointer, which differs from every
actually produced object; both operations dereference only constructed
storage (no registry-level failure). -/
theorem claim4_no_match_outcome (env : FacEnv Criterion Input Base) (c : Criterion)
    (i : Input) (rs : List (Ptr × Ptr))
    (h : ∀ e ∈ buildState rs, env.pred e.1 c = false) :
    Produce env c i (buildState rs) = []
    ∧ ProduceOne env c i (buildState rs) = none
    ∧ (∀ b : Base, (none : Option Base) ≠ some b)
    ∧ (ProduceS env c i (some (buildState rs))).2.2 = true
    ∧ (ProduceOneS env c i (some (buildState rs))).2.2 = true := by
  refine ⟨Produce_eq_nil_of_no_match env c i _ h,
    ProduceOne_eq_none_of_no_match env c i _ h, ?_, rfl, rfl⟩
  intro b hb
  exact Option.noConfusion hb

/-- Claim C4 witness with the all-false predicates. -/
theorem claim4_no_match_outcome_witness :
    Produce envNoMatch () () (buildState rsCex) = []
    ∧ ProduceOne envNoMatch () () (buildState rsCex) = none
    ∧ (∀ b : Nat, (none : Option Nat) ≠ some b)
    ∧ (ProduceS envNoMatch () () (some (buildState rsCex))).2.2 = true
    ∧ (ProduceOneS envNoMatch () () (some (buildState rsCex))).2.2 = true :=
  claim4_no_match_outcome envNoMatch () () rsCex (by decide)

/-- Claim C5: during one `Produce` or `ProduceOne` query each registered
entry's predicate is evaluated at most once and a factory is invoked only for
an entry whose predicate accepted the criterion; the instrumented loops agree
with the plain ones. -/
theorem claim5_single_evaluation (env : FacEnv Criterion Input Base)
    (c : Criterion) (i : Input) (rs : List (Ptr × Ptr)) :
    (ProduceEv env c i (buildState rs)).1 = Produce env c i (buildState rs)
    ∧ (ProduceOneEv env c i (buildState rs)).1 = ProduceOne env c i (buildState rs)
    ∧ (∀ p : Ptr, (ProduceEv env c i (buildState rs)).2.countP (isPredEvalAt p) ≤ 1)
    ∧ (∀ p : Ptr, (ProduceOneEv env c i (buildState rs)).2.countP (isPredEvalAt p) ≤ 1)
    ∧ (∀ p f : Ptr, Ev.facCall p f ∈ (ProduceEv env c i (buildState rs)).2 →
        (p, f) ∈ buildState rs ∧ env.pred p c = true)
    ∧ (∀ p f : Ptr, Ev.facCall p f ∈ (ProduceOneEv env c i (buildState rs)).2 →
        (p, f) ∈ buildState rs ∧ env.pred p c = true) := by
  refine ⟨ProduceEv_fst env c i _, ProduceOneEv_fst env c i _, ?_, ?_, ?_, ?_⟩
  · intro p
    rw [ProduceEv_predEval_count]
    exact countP_key_le_one p (keySorted_buildState rs)
  · intro p
    exact le_trans (ProduceOneEv_predEval_count_le env c i p _)
      (countP_key_le_one p (keySorted_buildState rs))
  · intro p f hmem
    exact ProduceEv_facCall_mem env c i hmem
  · intro p f hmem
    exact ProduceOneEv_facCall_mem env c i hmem

/-- Claim C5 witness: the factory call recorded for the single entry of a
one-entry registry did come from a matching registered entry. -/
theorem claim5_single_evaluation_witness :
    (1, 10) ∈ buildState [(1, 10)] ∧ envCex.pred 1 () = true :=
  (claim5_single_evaluation envCex () () [(1, 10)]).2.2.2.2.1 1 10 (by decide)

/-- Claim C6: over any sequence of public calls starting from the initial null
static pointer, every dereference of the storage happens after it has been
constructed, and the storage is constructed exactly once (zero times when no
call ever touches the registry). -/
theorem claim6_storage_initialized_once (ops : List (Op Criterion Input)) :
    (runOps ops none).2.2 = true
    ∧ (runOps ops none).2.1 = (if ops.isEmpty then 0 else 1) := by
  cases ops with
  | nil => exact ⟨rfl, rfl⟩
  | cons o rest =>
    have hstep : ∃ m', stepOp o none = (some m', 1, true) := by
      cases o
      · exact ⟨_, rfl⟩
      · exact ⟨_, rfl⟩
      · exact ⟨_, rfl⟩
    obtain ⟨m', hm⟩ := hstep
    constructor
    · have h2 := (runOps_from_some rest m').2
      simp [runOps, hm, h2]
    · have h1 := (runOps_from_some rest m').1
      simp [runOps, hm, h1]

/-- Claim C7: `registerPtr` returns nothing and its only effect is on the
registry's entry collection: the registered functions' behaviour and every
other component of the world are untouched, and the pointer change is exactly
the `create`-then-insert on the entry collection. -/
theorem claim7_register_frame (w : World Criterion Input Base Other) (p f : Ptr) :
    (registerPtrW p f w).env = w.env
    ∧ (registerPtrW p f w).other = w.other
    ∧ (registerPtrW p f w).registeredFuns = (registerPtr p f w.registeredFuns).1
    ∧ entriesOf (registerPtrW p f w).registeredFuns
        = mapInsert p f (entriesOf w.registeredFuns) := by
  refine ⟨rfl, rfl, rfl, ?_⟩
  cases hw : w.registeredFuns with
  | none => simp [registerPtrW, registerPtr, create, entriesOf, hw]
  | some m => simp [registerPtrW, registerPtr, create, entriesOf, hw]

/-- Claim C8: querying a registry that has never seen a registration is
well-defined: the static pointer is constructed by `create()` before the
dereference, `Produce` returns the empty vector and `ProduceOne` the null
owning pointer; moreover every public operation dereferences only constructed
storage, whatever the pointer state. -/
theorem claim8_query_before_any_registration (env : FacEnv Criterion Input Base)
    (c : Criterion) (i : Input) :
    ProduceS env c i none = ([], some [], true)
    ∧ ProduceOneS env c i none = (none, some [], true)
    ∧ (∀ (p f : Ptr) (s : RegPtr), (ProduceS env c i s).2.2 = true
        ∧ (ProduceOneS env c i s).2.2 = true ∧ (registerPtr p f s).2 = true) := by
  refine ⟨rfl, rfl, ?_⟩
  intro p f s
  cases s <;> exact ⟨rfl, rfl, rfl⟩

/-- Claim C9: `ProduceOne` signals "no match" with the null owning pointer;
when the invoked factory (the minimal-key match) returns null, the result is
that same null, indistinguishable from the no-match result; when every
registered factory returns a non-null object, a null result is equivalent to
"no entry matched". -/
theorem claim9_null_product_conflation (env : FacEnv Criterion Input Base)
    (c : Criterion) (i : Input) (rs : List (Ptr × Ptr)) :
    ((∀ e ∈ buildState rs, env.pred e.1 c = false) →
      ProduceOne env c i (buildState rs) = none)
    ∧ (∀ p f : Ptr, (p, f) ∈ buildState rs → env.pred p c = true →
        (∀ q g : Ptr, (q, g) ∈ buildState rs → env.pred q c = true → p ≤ q) →
        env.fac f i = none →
        ProduceOne env c i (buildState rs) = none)
    ∧ ((∀ e ∈ buildState rs, env.fac e.2 i ≠ none) →
        (ProduceOne env c i (buildState rs) = none ↔
          ∀ e ∈ buildState rs, env.pred e.1 c = false)) := by
  refine ⟨ProduceOne_eq_none_of_no_match env c i _, ?_, ?_⟩
  · intro p f hmem hpred hmin hnull
    obtain ⟨p', f', hmem', hpred', hmin', hval⟩ :=
      ProduceOne_first_sorted_match env c i _ (keySorted_buildState rs) p f hmem hpred
    have hpp : p' = p := le_antisymm (hmin' p f hmem hpred) (hmin p' f' hmem' hpred')
    rw [hpp] at hmem'
    have hff : f' = f := key_unique (keySorted_buildState rs) hmem' hmem
    rw [hval, hff, hnull]
  · intro hnn
    constructor
    · intro hres
      by_contra hex
      push_neg at hex
      obtain ⟨e, he, hne⟩ := hex
      have hpred : env.pred e.1 c = true := by
        rcases Bool.eq_false_or_eq_true (env.pred e.1 c) with h | h
        · exact h
        · exact absurd h hne
      have hmem : (e.1, e.2) ∈ buildState rs := by simpa using he
      obtain ⟨p', f', hmem', hpred', hmin', hval⟩ :=
        ProduceOne_first_sorted_match env c i _ (keySorted_buildState rs) e.1 e.2 hmem hpred
      rw [hval] at hres
      exact hnn (p', f') hmem' hres
    · exact ProduceOne_eq_none_of_no_match env c i _

/-- Claim C9 witness: with a single matching entry whose factory returns the
null owning pointer, `ProduceOne` returns the null no-match value. -/
theorem claim9_null_product_conflation_witness :
    ProduceOne envNullFac () () (buildState [(1, 10)]) = none :=
  (claim9_null_product_conflation envNullFac () () [(1, 10)]).2.1 1 10 (by decide)
    (by decide)
    (by
      intro q g hq _
      have hq' : q = 1 ∧ g = 10 := by
        simpa [buildState, mapInsert, Prod.ext_iff] using hq
      exact le_of_eq hq'.1.symm)
    rfl

/-- Claim C10: queries are deterministic and leave the entry collection
unchanged: running the same query twice in sequence gives the same result both
times, and the entries after each query are the entries before it. -/
theorem claim10_query_deterministic (env : FacEnv Criterion Input Base)
    (c : Criterion) (i : Input) (s : RegPtr) :
    (ProduceS env c i ((ProduceS env c i s).2.1)).1 = (ProduceS env c i s).1
    ∧ (ProduceOneS env c i ((ProduceOneS env c i s).2.1)).1 = (ProduceOneS env c i s).1
    ∧ entriesOf ((ProduceS env c i s).2.1) = entriesOf s
    ∧ entriesOf ((ProduceOneS env c i s).2.1) = entriesOf s := by
  cases s <;> simp [ProduceS, ProduceOneS, create, entriesOf, Produce, ProduceOne]

end SelectiveFactory
